import Mathlib

/-!
Verification of the `tcp-probe` utility (`src/main.rs`) against its design
specification.  The Rust source is shallowly embedded: `std::time::Duration`
becomes a count of nanoseconds, `f64` values arising in `parse_duration` are
modelled exactly as decimal rationals (every numeric literal the theorems
evaluate is exactly representable in binary64, so no rounding is lost, and
measured latencies are carried abstractly as `ℚ`), the network side
of `probe_host` is abstracted by an environment assigning each attempt index
its `AttemptOutcome`, and the tokio task / semaphore orchestration in `main`
becomes a small-step transition system over per-task phases.
-/

namespace TcpProbe

/-- Model of `std::time::Duration` as a total count of nanoseconds.
(`Duration::from_secs`/`from_millis` never panic for the values reachable
here, and `from_secs_f64` guards its range below, so `Nat` suffices.) -/
structure Duration where
  nanos : Nat
deriving DecidableEq

/-- Rust `Duration::from_secs`. -/
def Duration.from_secs (n : Nat) : Duration := ⟨n * 1000000000⟩

/-- Rust `Duration::from_millis`. -/
def Duration.from_millis (n : Nat) : Duration := ⟨n * 1000000⟩

/-- Rust `Duration::as_millis`: truncating division of nanoseconds. -/
def Duration.as_millis (d : Duration) : Nat := d.nanos / 1000000

/-- An exact decimal value `num / 10 ^ scale`, the value a finite `f64`
literal denotes. -/
structure Dec10 where
  num : Int
  scale : Nat
deriving DecidableEq

/-- An `f64` value as far as `parse_duration` can observe one: a finite
value (held exactly as a decimal rational — all inputs the development
evaluates at are exactly representable in binary64, so no rounding is
lost), one of the two infinities (produced by the literal forms `inf` /
`infinity`), or `NaN`.  Overflow of huge finite decimal literals to
infinity is not modelled: such a value is already rejected by the same
range check of `from_secs_f64` that rejects infinity. -/
inductive F64 where
  | finite (d : Dec10)
  | inf
  | neginf
  | nan
deriving DecidableEq

/-- The result of a Rust expression that either yields a `Duration` or
panics (as `Duration::from_secs_f64` does on negative/out-of-range input). -/
inductive DurationOrPanic where
  | ok (d : Duration)
  | panicked
deriving DecidableEq

/-- Numeric value of a list of ASCII digits (most significant first). -/
def digitsVal (cs : List Char) : Nat :=
  cs.foldl (fun a c => 10 * a + (c.toNat - 48)) 0

/-- All characters are ASCII digits (`char::to_digit(10)` succeeds). -/
def allDigits (cs : List Char) : Bool :=
  cs.all (fun c => c.isDigit)

/-- Split a character list at the first occurrence of `sep`: returns the
part before it and, when `sep` occurs, the part after it. -/
def splitOnce (sep : Char) : List Char → List Char × Option (List Char)
  | [] => ([], none)
  | c :: rest =>
    if c = sep then ([], some rest)
    else
      let (a, b) := splitOnce sep rest
      (c :: a, b)

/-- Split at the first exponent marker `e`/`E`. -/
def splitExpMark : List Char → List Char × Option (List Char)
  | [] => ([], none)
  | c :: rest =>
    if c = 'e' ∨ c = 'E' then ([], some rest)
    else
      let (a, b) := splitExpMark rest
      (c :: a, b)

/-- Exponent part of an `f64` literal: optional sign, then one or more
digits. -/
def parseExpVal (cs : List Char) : Option Int :=
  let (sign, ds) :=
    match cs with
    | '+' :: r => ((1 : Int), r)
    | '-' :: r => ((-1 : Int), r)
    | r => ((1 : Int), r)
  if ds.isEmpty then none
  else if allDigits ds then some (sign * (digitsVal ds : Int))
  else none

/-- Mantissa of an `f64` literal, per Rust's grammar:
`Digits | Digits '.' Digits? | '.' Digits` — the value is
`digits / 10 ^ (number of fraction digits)`. -/
def parseMantissa (cs : List Char) : Option (Nat × Nat) :=
  match splitOnce '.' cs with
  | (ip, none) =>
    if ip.isEmpty then none
    else if allDigits ip then some (digitsVal ip, 0)
    else none
  | (ip, some fp) =>
    if ip.isEmpty ∧ fp.isEmpty then none
    else if allDigits ip ∧ allDigits fp then
      some (digitsVal ip * 10 ^ fp.length + digitsVal fp, fp.length)
    else none

/-- Multiply the decimal `num / 10 ^ scale` by `10 ^ ex`. -/
def applyExp (num : Int) (scale : Nat) (ex : Int) : Dec10 :=
  if 0 ≤ ex then ⟨num * 10 ^ ex.toNat, scale⟩ else ⟨num, scale + (-ex).toNat⟩

/-- Rust `str::parse::<f64>()`: optional sign, then (ASCII-case-insensitively)
`inf`/`infinity`/`nan`, or a mantissa with optional exponent.  Values are
exact decimal rationals (see `F64`). -/
def parseF64 (s : String) : Option F64 :=
  let (neg, rest) :=
    match s.data with
    | '+' :: r => (false, r)
    | '-' :: r => (true, r)
    | r => (false, r)
  let low := rest.map Char.toLower
  if low = "inf".data ∨ low = "infinity".data then
    some (if neg then F64.neginf else F64.inf)
  else if low = "nan".data then some F64.nan
  else
    let (mcs, ecs) := splitExpMark rest
    match parseMantissa mcs, ecs with
    | some m, none =>
      some (.finite ⟨if neg then -(m.1 : Int) else (m.1 : Int), m.2⟩)
    | some m, some e =>
      (parseExpVal e).map (fun ex =>
        .finite (applyExp (if neg then -(m.1 : Int) else (m.1 : Int)) m.2 ex))
    | none, _ => none

/-- Rust `str::parse::<u64>()`: optional `+`, one or more ASCII digits, error on
overflow past `u64::MAX`. -/
def parseU64 (s : String) : Option Nat :=
  let ds := match s.data with
    | '+' :: r => r
    | r => r
  if ds.isEmpty then none
  else if allDigits ds then
    let n := digitsVal ds
    if n < 2 ^ 64 then some n else none
  else none

/-- Rust `Duration::from_secs_f64`: panics when the value is negative, not
finite, or at least `2^64` seconds; otherwise rounds to the nearest
nanosecond.  With `v = num / 10 ^ scale` the nanosecond count is
`⌊v·10⁹ + 1/2⌋ = (2·num·10⁹ + 10^scale) / (2·10^scale)`.  (Rust rounds
ties to even; no input evaluated in this development produces a tie, and
`-0.0` — equal to `0` here — is in range.) -/
def from_secs_f64 : F64 → DurationOrPanic
  | .finite d =>
    if 0 ≤ d.num ∧ d.num < 2 ^ 64 * 10 ^ d.scale then
      .ok ⟨(2 * d.num.toNat * 10 ^ 9 + 10 ^ d.scale) / (2 * 10 ^ d.scale)⟩
    else .panicked
  | .inf => .panicked
  | .neginf => .panicked
  | .nan => .panicked

/-- Rust `char::is_whitespace`: the Unicode `White_Space` property, i.e.
U+0009–U+000D, U+0020, U+0085, U+00A0, U+1680, U+2000–U+200A, U+2028,
U+2029, U+202F, U+205F and U+3000. -/
def rustIsWhitespace (c : Char) : Bool :=
  let n := c.toNat
  decide ((9 ≤ n ∧ n ≤ 13) ∨ n = 32 ∨ n = 133 ∨ n = 160 ∨ n = 5760 ∨
    (8192 ≤ n ∧ n ≤ 8202) ∨ n = 8232 ∨ n = 8233 ∨ n = 8239 ∨ n = 8287 ∨
    n = 12288)

/-- Rust `str::trim`: remove leading and trailing `White_Space`
characters. -/
def rustTrim (s : String) : String :=
  ⟨((s.data.dropWhile rustIsWhitespace).reverse.dropWhile
      rustIsWhitespace).reverse⟩

/-- Rust `str::strip_suffix('s')`. -/
def stripSuffixS (s : String) : Option String :=
  if s.data.getLast? = some 's' then some ⟨s.data.dropLast⟩ else none

/-- Rust `str::strip_suffix("ms")`. -/
def stripSuffixMs (s : String) : Option String :=
  match s.data.reverse with
  | 's' :: 'm' :: rest => some ⟨rest.reverse⟩
  | _ => none

/-- Model of `parse_duration` (main.rs lines 53–62).  Faithful to the source branch
order: the `'s'` suffix is tested first, so every string ending in `"ms"`
also takes the first branch. -/
def parse_duration (s : String) : DurationOrPanic :=
  let s := rustTrim s
  match stripSuffixS s with
  | some secs => from_secs_f64 ((parseF64 secs).getD (.finite ⟨5, 0⟩))
  | none =>
    match stripSuffixMs s with
    | some ms => .ok (Duration.from_millis ((parseU64 ms).getD 5000))
    | none => .ok (Duration.from_secs ((parseU64 s).getD 5))

/-! ## The probing engine (`probe_host`, main.rs lines 64–117)

One loop iteration of `probe_host` performs DNS resolution and, when that
succeeds, one timeout-bounded connect.  The network is abstracted by an
environment `env : Nat → AttemptOutcome` giving the outcome of iteration
`i`; a successful connect carries its measured latency in milliseconds
(`elapsed.as_secs_f64() * 1000.0`, held exactly as a rational). -/

/-- Outcome of one loop iteration's interaction with the network. -/
inductive AttemptOutcome where
  | resolveNone                 -- `to_socket_addrs` ok but no addresses
  | resolveErr (e : String)     -- `to_socket_addrs` returned `Err(e)`
  | connected (latencyMs : ℚ)   -- connect finished `Ok(Ok(_))`, latency measured
  | connectErr (e : String)     -- connect finished `Ok(Err(e))`
  | timedOut                    -- the timeout elapsed first
deriving DecidableEq

/-- Did the iteration reach a successful connection? -/
def AttemptOutcome.isConn : AttemptOutcome → Bool
  | .connected _ => true
  | _ => false

/-- The `last_error` string recorded for a failed iteration (`none` for a
successful one), exactly as formatted at main.rs lines 79, 84, 102, 105. -/
def errorDetail (tmo : Duration) : AttemptOutcome → Option String
  | .resolveNone => some "DNS resolution failed: no addresses"
  | .resolveErr e => some ("DNS error: " ++ e)
  | .connected _ => none
  | .connectErr e => some ("Connection refused: " ++ e)
  | .timedOut => some ("timeout (" ++ toString tmo.as_millis ++ "ms)")

/-- The `ProbeResult` struct (main.rs lines 37–44). -/
structure ProbeResult where
  host : String
  status : String
  latency_ms : Option ℚ
  error : Option String
  retries_used : Nat
deriving DecidableEq

/-- Observable timing events of one `probe_host` run: the backoff sleeps
(`tokio::time::sleep`, main.rs line 71) and the start of each loop
iteration's network work. -/
inductive PEvent where
  | sleep (ms : Nat)
  | attemptStart (i : Nat)
deriving DecidableEq

/-- The body of `probe_host`'s `for attempt in 0..=retries` loop, with
`fuel` counting the iterations that remain (`fuel + attempt = retries + 1`
at every call from `probe_host`).  `lastError` and `retriesUsed` are the
mutable locals of main.rs lines 65–66.  Returns the `ProbeResult` together
with the trace of timing events. -/
def probeHostGo (host : String) (tmo : Duration) (env : Nat → AttemptOutcome) :
    Nat → Nat → Option String → Nat → ProbeResult × List PEvent
  | 0, _, lastError, retriesUsed =>
    -- loop exhausted: the final result of main.rs lines 110–116
    (⟨host, "fail", none, lastError, retriesUsed⟩, [])
  | fuel + 1, attempt, _lastError, retriesUsed =>
    -- main.rs lines 69–72: when `attempt > 0`, update `retries_used` and sleep
    let retriesUsed1 := if 0 < attempt then attempt else retriesUsed
    let pre : List PEvent :=
      if 0 < attempt then [.sleep (100 * attempt)] else []
    match env attempt with
    | .connected lat =>
      -- main.rs lines 91–99: immediate return of the healthy result
      (⟨host, "ok", some lat, none, retriesUsed1⟩, pre ++ [.attemptStart attempt])
    | o =>
      -- every other outcome records its detail in `last_error` and continues
      let rest := probeHostGo host tmo env fuel (attempt + 1) (errorDetail tmo o) retriesUsed1
      (rest.1, pre ++ [.attemptStart attempt] ++ rest.2)

/-- Model of `probe_host` (main.rs lines 64–117): the loop runs `retries + 1`
iterations starting at attempt index 0, with `last_error = None` and
`retries_used = 0`. -/
def probe_host (host : String) (tmo : Duration) (retries : Nat)
    (env : Nat → AttemptOutcome) : ProbeResult :=
  (probeHostGo host tmo env (retries + 1) 0 none 0).1

/-- The timing-event trace of the same run. -/
def probeHostEvents (host : String) (tmo : Duration) (retries : Nat)
    (env : Nat → AttemptOutcome) : List PEvent :=
  (probeHostGo host tmo env (retries + 1) 0 none 0).2

/-- Number of loop iterations actually executed when `fuel` iterations
remain and the next has index `attempt`: iterations run until the first
success, or until fuel runs out. -/
def runLen (env : Nat → AttemptOutcome) : Nat → Nat → Nat
  | _, 0 => 0
  | attempt, fuel + 1 =>
    if (env attempt).isConn then 1 else 1 + runLen env (attempt + 1) fuel

/-- The timing events surrounding loop iteration `i`: a backoff sleep of
`100·i` ms when `i > 0` (and nothing when `i = 0`), then the start of the
iteration's network work. -/
def backoffStep (i : Nat) : List PEvent :=
  (if 0 < i then [PEvent.sleep (100 * i)] else []) ++ [PEvent.attemptStart i]

/-- Extract the latency from a successful outcome. -/
theorem AttemptOutcome.isConn_true_iff (o : AttemptOutcome) :
    o.isConn = true ↔ ∃ lat, o = .connected lat := by
  cases o <;> simp [AttemptOutcome.isConn]

/-- One-step unfolding of the loop for a successful iteration. -/
theorem probeHostGo_conn_step (host : String) (tmo : Duration)
    (env : Nat → AttemptOutcome) (fuel attempt : Nat) (lerr : Option String)
    (ru : Nat) (lat : ℚ) (ho : env attempt = .connected lat) :
    probeHostGo host tmo env (fuel + 1) attempt lerr ru =
      (⟨host, "ok", some lat, none, if 0 < attempt then attempt else ru⟩,
       (if 0 < attempt then [PEvent.sleep (100 * attempt)] else []) ++
         [PEvent.attemptStart attempt]) := by
  simp [probeHostGo, ho]

/-- One-step unfolding of the loop for a failed iteration. -/
theorem probeHostGo_fail_step (host : String) (tmo : Duration)
    (env : Nat → AttemptOutcome) (fuel attempt : Nat) (lerr : Option String)
    (ru : Nat) (o : AttemptOutcome) (ho : env attempt = o)
    (hno : o.isConn = false) :
    probeHostGo host tmo env (fuel + 1) attempt lerr ru =
      ((probeHostGo host tmo env fuel (attempt + 1) (errorDetail tmo o)
          (if 0 < attempt then attempt else ru)).1,
       (if 0 < attempt then [PEvent.sleep (100 * attempt)] else []) ++
         [PEvent.attemptStart attempt] ++
         (probeHostGo host tmo env fuel (attempt + 1) (errorDetail tmo o)
          (if 0 < attempt then attempt else ru)).2) := by
  cases o <;> simp [AttemptOutcome.isConn] at hno ⊢ <;> simp [probeHostGo, ho]

theorem probeHostGo_success (host : String) (tmo : Duration)
    (env : Nat → AttemptOutcome) :
    ∀ fuel attempt lerr ru i lat, attempt ≤ i → i < attempt + fuel →
      (∀ j, attempt ≤ j → j < i → (env j).isConn = false) →
      env i = .connected lat →
      (probeHostGo host tmo env fuel attempt lerr ru).1 =
        ⟨host, "ok", some lat, none, if 0 < i then i else ru⟩ := by
  intro fuel
  induction fuel with
  | zero => intro attempt lerr ru i lat h1 h2 _ _; omega
  | succ f ih =>
    intro attempt lerr ru i lat h1 h2 hfail hconn
    rcases Nat.eq_or_lt_of_le h1 with heq | hlt
    · subst heq
      rw [probeHostGo_conn_step host tmo env f attempt lerr ru lat hconn]
    · have hi : 0 < i := Nat.lt_of_le_of_lt (Nat.zero_le _) hlt
      have hne : (env attempt).isConn = false := hfail attempt (Nat.le_refl _) hlt
      rw [probeHostGo_fail_step host tmo env f attempt lerr ru (env attempt) rfl hne]
      rw [ih (attempt + 1) _ _ i lat hlt (by omega)
        (fun j hj1 hj2 => hfail j (by omega) hj2) hconn]
      simp [hi]

theorem probeHostGo_allfail (host : String) (tmo : Duration)
    (env : Nat → AttemptOutcome) :
    ∀ f attempt lerr ru, (∀ j, attempt ≤ j → j ≤ attempt + f → (env j).isConn = false) →
      (probeHostGo host tmo env (f + 1) attempt lerr ru).1 =
        ⟨host, "fail", none, errorDetail tmo (env (attempt + f)),
          if 0 < attempt + f then attempt + f else ru⟩ := by
  intro f
  induction f with
  | zero =>
    intro attempt lerr ru hfail
    have hne : (env attempt).isConn = false :=
      hfail attempt (Nat.le_refl _) (by omega)
    rw [probeHostGo_fail_step host tmo env 0 attempt lerr ru (env attempt) rfl hne]
    simp [probeHostGo]
  | succ f ih =>
    intro attempt lerr ru hfail
    have hne : (env attempt).isConn = false :=
      hfail attempt (Nat.le_refl _) (by omega)
    have harith : attempt + 1 + f = attempt + (f + 1) := by omega
    have hpos : 0 < attempt + (f + 1) := by omega
    rw [probeHostGo_fail_step host tmo env (f + 1) attempt lerr ru (env attempt) rfl hne]
    rw [ih (attempt + 1) _ _ (fun j hj1 hj2 => hfail j (by omega) (by omega))]
    rw [harith]
    simp [hpos]

theorem probeHostGo_events (host : String) (tmo : Duration)
    (env : Nat → AttemptOutcome) :
    ∀ fuel attempt lerr ru,
      (probeHostGo host tmo env fuel attempt lerr ru).2 =
        (List.range' attempt (runLen env attempt fuel)).flatMap backoffStep := by
  intro fuel
  induction fuel with
  | zero => intro attempt lerr ru; simp [probeHostGo, runLen]
  | succ f ih =>
    intro attempt lerr ru
    cases hc : (env attempt).isConn with
    | true =>
      obtain ⟨lat, ho⟩ := (AttemptOutcome.isConn_true_iff _).mp hc
      rw [probeHostGo_conn_step host tmo env f attempt lerr ru lat ho]
      rw [show runLen env attempt (f + 1) = 1 by simp [runLen, hc]]
      simp [List.range'_succ, backoffStep]
    | false =>
      rw [probeHostGo_fail_step host tmo env f attempt lerr ru (env attempt) rfl hc]
      rw [show runLen env attempt (f + 1) = runLen env (attempt + 1) f + 1 by
        simp [runLen, hc]; omega]
      rw [List.range'_succ, List.flatMap_cons, ih]
      simp [backoffStep]

/-- Master case split for one `probe_host` run: either some attempt
connects — the first such attempt `i` yields the healthy result — or every
attempt fails and the loop falls through to the unhealthy result. -/
theorem probe_host_cases (host : String) (tmo : Duration) (retries : Nat)
    (env : Nat → AttemptOutcome) :
    (∃ i lat, i ≤ retries ∧ env i = .connected lat ∧
        (∀ j, j < i → (env j).isConn = false) ∧
        probe_host host tmo retries env = ⟨host, "ok", some lat, none, i⟩) ∨
    ((∀ j, j ≤ retries → (env j).isConn = false) ∧
        probe_host host tmo retries env =
          ⟨host, "fail", none, errorDetail tmo (env retries), retries⟩) := by
  by_cases hex : ∃ i, i ≤ retries ∧ (env i).isConn = true
  · left
    obtain ⟨i, hiR, hic⟩ := hex
    have hwit : ∃ n, (env n).isConn = true := ⟨i, hic⟩
    set i0 := Nat.find hwit with hi0def
    have hi0c : (env i0).isConn = true := Nat.find_spec hwit
    have hi0min : ∀ j, j < i0 → (env j).isConn = false := by
      intro j hj
      have := Nat.find_min hwit hj
      exact Bool.eq_false_iff.mpr this
    have hi0R : i0 ≤ retries := Nat.le_trans (Nat.find_min' hwit hic) hiR
    obtain ⟨lat, hlat⟩ := (AttemptOutcome.isConn_true_iff _).mp hi0c
    refine ⟨i0, lat, hi0R, hlat, hi0min, ?_⟩
    unfold probe_host
    rw [probeHostGo_success host tmo env (retries + 1) 0 none 0 i0 lat
      (Nat.zero_le _) (by omega) (fun j _ hj2 => hi0min j hj2) hlat]
    rcases Nat.eq_zero_or_pos i0 with h0 | h0 <;> simp [h0]
  · right
    have hall : ∀ j, j ≤ retries → (env j).isConn = false := by
      intro j hj
      cases h : (env j).isConn with
      | false => rfl
      | true => exact absurd ⟨j, hj, h⟩ hex
    refine ⟨hall, ?_⟩
    unfold probe_host
    rw [probeHostGo_allfail host tmo env retries 0 none 0
      (fun j _ hj2 => hall j (by omega))]
    rcases Nat.eq_zero_or_pos retries with h0 | h0 <;> simp [h0]

/-! ## Orchestration (`main`, main.rs lines 145–219)

`main` merges CLI targets with the optional file's lines, aborts early on
a file read error or an empty merged list, spawns one tokio task per
target (each acquiring a semaphore slot before probing), collects results
by awaiting the join handles in spawn order, and derives the exit code.

The per-task probe outcomes are abstracted by `env : Nat → Nat →
AttemptOutcome` (task index ↦ attempt index ↦ outcome).  Tasks never panic
(`sem.acquire().unwrap()` can only fail if the semaphore is closed, which
never happens, and `probe_host` has no panicking path), so every
`handle.await` at line 191 yields `Ok` and no result is dropped. -/

/-- The `Summary` struct (main.rs lines 46–51). -/
structure Summary where
  results : List ProbeResult
  healthy : Nat
  total : Nat
deriving DecidableEq

/-- File-target collection (main.rs lines 154–160): split into lines, trim
each, keep those that are non-empty and do not start with `#`.  (Rust's
`str::lines` additionally strips a trailing `\r`, which `trim` removes
anyway, and a trailing newline yields an empty line that the filter
drops — both coincide with splitting on `'\n'` here.) -/
def collectFileTargets (content : String) : List String :=
  ((content.splitOn "\n").map rustTrim).filter
    (fun l => !l.isEmpty && !l.startsWith "#")

/-- The merged target list (main.rs lines 151–160), for a run whose file
read did not fail: CLI targets first, then the file's surviving lines. -/
def mergedTargets (cli : List String) (file : Option (Except String String)) :
    List String :=
  cli ++ (match file with
    | some (.ok content) => collectFileTargets content
    | _ => [])

/-- The per-target results in input order, task `k` probing target `k`
under the attempt environment `env k`. -/
def runProbes (tmo : Duration) (retries : Nat) :
    List String → (Nat → Nat → AttemptOutcome) → List ProbeResult
  | [], _ => []
  | t :: ts, env =>
    probe_host t tmo retries (env 0) :: runProbes tmo retries ts (fun k => env (k + 1))

/-- What a run of `main` observably produces: the process exit code and,
when probing happened, the aggregate summary (main.rs lines 196–219; exit
0 is the implicit success exit at the end of `main`). -/
structure MainOutcome where
  exitCode : Nat
  summary : Option Summary
deriving DecidableEq

/-- Model of `main` (main.rs lines 145–219), given the parsed CLI targets, the
`--file` argument's read outcome (`none`: no `--file`; `some (.error e)`:
`fs::read_to_string` failed; `some (.ok c)`: it returned `c`), the parsed
connect timeout, the retry budget, and the probe environment. -/
def mainRun (cli : List String) (file : Option (Except String String))
    (tmo : Duration) (retries : Nat) (env : Nat → Nat → AttemptOutcome) :
    MainOutcome :=
  match file with
  | some (.error _) => ⟨1, none⟩   -- lines 162–165: abort before probing
  | _ =>
    let targets := mergedTargets cli file
    if targets.isEmpty then ⟨1, none⟩   -- lines 169–172: abort before probing
    else
      let results := runProbes tmo retries targets env
      let healthy := results.countP (fun r => r.status == "ok")
      ⟨if healthy < targets.length then 1 else 0,   -- lines 217–219
       some ⟨results, healthy, targets.length⟩⟩

/-! ## The concurrent execution model (main.rs lines 175–194)

Each spawned task is in one of three phases: waiting on
`sem.acquire()`, running `probe_host` (holding one semaphore permit), or
finished with its `ProbeResult` (permit released by dropping `_permit`).
`avail` counts the semaphore's free permits.  Any interleaving of
acquisitions and completions is a sequence of `Step`s. -/

/-- Phase of one spawned task. -/
inductive TaskPhase where
  | waiting
  | running
  | finished (r : ProbeResult)
deriving DecidableEq

/-- Has the task finished? -/
def TaskPhase.isFinished : TaskPhase → Bool
  | .finished _ => true
  | _ => false

/-- Global state: one phase per task (index-aligned with the target list)
and the number of free semaphore permits. -/
structure SysState where
  phases : List TaskPhase
  avail : Nat
deriving DecidableEq

/-- Initial state: every task spawned and contending for a slot, the
semaphore holding all `conc` permits (`Semaphore::new(args.concurrency)`,
main.rs line 175). -/
def initState (targets : List String) (conc : Nat) : SysState :=
  ⟨targets.map (fun _ => TaskPhase.waiting), conc⟩

/-- Number of tasks currently past the slot-acquisition point (running
`probe_host` while holding a permit). -/
def countRunning (s : SysState) : Nat :=
  s.phases.countP (fun ph => ph == TaskPhase.running)

/-- One scheduler step: a waiting task acquires a free permit and starts
probing, or a running task completes its probe and releases its permit
(the unconditional drop of `_permit` on task exit, main.rs line 184). -/
inductive Step (targets : List String) (tmo : Duration) (retries : Nat)
    (env : Nat → Nat → AttemptOutcome) : SysState → SysState → Prop
  | acquire (phases : List TaskPhase) (avail : Nat) (k : Nat)
      (hw : phases[k]? = some .waiting) (ha : 0 < avail) :
      Step targets tmo retries env ⟨phases, avail⟩
        ⟨phases.set k .running, avail - 1⟩
  | finish (phases : List TaskPhase) (avail : Nat) (k : Nat) (t : String)
      (hr : phases[k]? = some .running) (ht : targets[k]? = some t) :
      Step targets tmo retries env ⟨phases, avail⟩
        ⟨phases.set k (.finished (probe_host t tmo retries (env k))), avail + 1⟩

/-- States reachable from the initial state. -/
inductive Reaches (targets : List String) (tmo : Duration) (retries : Nat)
    (env : Nat → Nat → AttemptOutcome) (conc : Nat) : SysState → Prop
  | init : Reaches targets tmo retries env conc (initState targets conc)
  | step {s s' : SysState} : Reaches targets tmo retries env conc s →
      Step targets tmo retries env s s' → Reaches targets tmo retries env conc s'

/-- Result collection (main.rs lines 189–194): awaiting the join handles in
spawn order and pushing each result — i.e. the finished tasks' results in
task-index order. -/
def extractResults (phases : List TaskPhase) : List ProbeResult :=
  phases.filterMap (fun ph => match ph with
    | .finished r => some r
    | _ => none)

/-- Lemma: `probe_host` always reports the host it was asked to probe (both exit
paths of the loop set `host: host.to_string()`). -/
theorem probe_host_host (host : String) (tmo : Duration) (retries : Nat)
    (env : Nat → AttemptOutcome) : (probe_host host tmo retries env).host = host := by
  rcases probe_host_cases host tmo retries env with
    ⟨i, lat, _, _, _, heq⟩ | ⟨_, heq⟩ <;> rw [heq]

/-- Replacing entry `k` (previously `b`) by `a` exchanges their
contributions to a `countP`. -/
theorem countP_set_exchange {α : Type} (p : α → Bool) :
    ∀ (l : List α) (k : Nat) (a b : α), l[k]? = some b →
      (l.set k a).countP p + (if p b then 1 else 0) =
        l.countP p + (if p a then 1 else 0) := by
  intro l
  induction l with
  | nil => intro k a b h; simp at h
  | cons x xs ih =>
    intro k a b h
    cases k with
    | zero =>
      simp only [List.getElem?_cons_zero, Option.some.injEq] at h
      subst h
      simp only [List.set]
      rw [List.countP_cons, List.countP_cons]
      omega
    | succ k =>
      simp only [List.getElem?_cons_succ] at h
      simp only [List.set]
      rw [List.countP_cons, List.countP_cons]
      have := ih k a b h
      omega

/-- The core safety invariant of the run: phase vector and target list stay
index-aligned, the running tasks and the free permits always partition the
`conc` semaphore permits, and a finished task's result is exactly
`probe_host` on its own target. -/
theorem reaches_invariant (targets : List String) (tmo : Duration)
    (retries : Nat) (env : Nat → Nat → AttemptOutcome) (conc : Nat)
    (s : SysState) (h : Reaches targets tmo retries env conc s) :
    s.phases.length = targets.length ∧
    countRunning s + s.avail = conc ∧
    ∀ k r, s.phases[k]? = some (.finished r) →
      ∃ t, targets[k]? = some t ∧ r = probe_host t tmo retries (env k) := by
  induction h with
  | init =>
    refine ⟨by simp [initState], ?_, ?_⟩
    · simp only [initState, countRunning]
      rw [List.countP_eq_zero.mpr ?_]
      · simp
      · intro ph hmem
        obtain ⟨t, _, hph⟩ := List.mem_map.mp hmem
        subst hph
        simp
    · intro k r hk
      rw [show (initState targets conc).phases = targets.map (fun _ => .waiting)
          from rfl, List.getElem?_map] at hk
      cases h2 : targets[k]? with
      | none => rw [h2] at hk; simp at hk
      | some t => rw [h2] at hk; simp at hk
  | step hprev hstep ih =>
    obtain ⟨ihlen, ihcnt, ihfin⟩ := ih
    cases hstep with
    | acquire phases avail k hw ha =>
      have hk : k < phases.length := by
        rcases List.getElem?_eq_some_iff.mp hw with ⟨h, _⟩
        exact h
      have hx := countP_set_exchange (fun ph => ph == TaskPhase.running)
        phases k .running .waiting hw
      have hbeq : (TaskPhase.waiting == TaskPhase.running) = false := rfl
      simp only [beq_self_eq_true, if_true, hbeq, Bool.false_eq_true, if_false] at hx
      refine ⟨by simpa using ihlen, ?_, ?_⟩
      · simp only [countRunning] at ihcnt ⊢
        omega
      · intro j r hj
        by_cases hkj : k = j
        · subst hkj
          rw [List.getElem?_set_self hk] at hj
          simp at hj
        · rw [List.getElem?_set_ne hkj] at hj
          exact ihfin j r hj
    | finish phases avail k t hr ht =>
      have hk : k < phases.length := by
        rcases List.getElem?_eq_some_iff.mp hr with ⟨h, _⟩
        exact h
      have hx := countP_set_exchange (fun ph => ph == TaskPhase.running)
        phases k (.finished (probe_host t tmo retries (env k))) .running hr
      have hbeq : (TaskPhase.finished (probe_host t tmo retries (env k)) ==
          TaskPhase.running) = false := rfl
      simp only [beq_self_eq_true, if_true, hbeq, Bool.false_eq_true, if_false] at hx
      refine ⟨by simpa using ihlen, ?_, ?_⟩
      · simp only [countRunning] at ihcnt ⊢
        omega
      · intro j r hj
        by_cases hkj : k = j
        · subst hkj
          rw [List.getElem?_set_self hk] at hj
          simp only [Option.some.injEq, TaskPhase.finished.injEq] at hj
          exact ⟨t, ht, hj.symm⟩
        · rw [List.getElem?_set_ne hkj] at hj
          exact ihfin j r hj

/-- When every task has finished and each finished entry reports its own
target as host, collecting in index order yields one result per target,
index-aligned with the target list. -/
theorem extractResults_spec :
    ∀ (phases : List TaskPhase) (targets : List String),
      phases.length = targets.length →
      (∀ ph ∈ phases, ph.isFinished = true) →
      (∀ (k : Nat) (r : ProbeResult), phases[k]? = some (TaskPhase.finished r) →
        ∃ t, targets[k]? = some t ∧ r.host = t) →
      (extractResults phases).length = targets.length ∧
      ∀ (k : Nat), ((extractResults phases)[k]?).map ProbeResult.host = targets[k]? := by
  intro phases
  induction phases with
  | nil =>
    intro targets hlen _ _
    cases targets with
    | nil => exact ⟨rfl, fun k => by simp [extractResults]⟩
    | cons t ts => simp at hlen
  | cons ph phs ih =>
    intro targets hlen hfin hhost
    cases targets with
    | nil => simp at hlen
    | cons t ts =>
      have hf0 : ph.isFinished = true := hfin ph (List.mem_cons_self _ _)
      obtain ⟨r, hr⟩ : ∃ r, ph = .finished r := by
        cases ph <;> simp [TaskPhase.isFinished] at hf0 ⊢
      subst hr
      obtain ⟨t0, ht0, hhost0⟩ := hhost 0 r (by simp)
      have ht0' : t0 = t := by simpa using ht0.symm
      have htail := ih ts (by simpa using hlen)
        (fun q hq => hfin q (List.mem_cons_of_mem _ hq))
        (fun k r2 h2 => by
          obtain ⟨t2, h3, h4⟩ := hhost (k + 1) r2 (by simpa using h2)
          exact ⟨t2, by simpa using h3, h4⟩)
      have hcons : extractResults (TaskPhase.finished r :: phs) =
          r :: extractResults phs := by
        simp [extractResults]
      rw [hcons]
      refine ⟨by simp [htail.1], ?_⟩
      intro k
      cases k with
      | zero =>
        subst ht0'
        simp [hhost0]
      | succ k => simpa using htail.2 k

/-- A failed iteration always records an error string. -/
theorem errorDetail_isSome_of_fail (tmo : Duration) (o : AttemptOutcome)
    (h : o.isConn = false) : (errorDetail tmo o).isSome = true := by
  cases o <;> simp [AttemptOutcome.isConn] at h ⊢ <;> simp [errorDetail]

/-! ## Claim theorems and witnesses -/

/-- Concrete timeout used by witnesses: 5 s. -/
def wTmo : Duration := ⟨5000000000⟩

/-- Witness environment: every attempt times out. -/
def wEnvTimeout : Nat → AttemptOutcome := fun _ => AttemptOutcome.timedOut

/-- Witness environment: attempt 0 times out, attempt 1 connects in 3 ms. -/
def wEnvConnAt1 : Nat → AttemptOutcome := fun j =>
  if j = 1 then AttemptOutcome.connected 3 else AttemptOutcome.timedOut

/-- C3: for every target, timeout and retry budget `R`, if the connect
attempt first succeeds on attempt index `i` (0-indexed, `i ≤ R`), the
`ProbeResult` returned by `probe_host` has status Healthy (`"ok"`),
`retries_used = i`, and carries the measured latency of that successful
attempt. -/
theorem probe_host_success_first_at (host : String) (tmo : Duration)
    (retries : Nat) (env : Nat → AttemptOutcome) (i : Nat) (lat : ℚ)
    (hiR : i ≤ retries)
    (hfirst : ∀ j, j < i → (env j).isConn = false)
    (hconn : env i = .connected lat) :
    probe_host host tmo retries env = ⟨host, "ok", some lat, none, i⟩ := by
  unfold probe_host
  rw [probeHostGo_success host tmo env (retries + 1) 0 none 0 i lat
    (Nat.zero_le _) (by omega) (fun j _ hj => hfirst j hj) hconn]
  rcases Nat.eq_zero_or_pos i with h0 | h0 <;> simp [h0]

theorem probe_host_success_first_at_witness :
    ((1 : Nat) ≤ 2 ∧ (∀ j, j < 1 → (wEnvConnAt1 j).isConn = false) ∧
      wEnvConnAt1 1 = AttemptOutcome.connected 3) ∧
    probe_host "example.com:443" wTmo 2 wEnvConnAt1 =
      ⟨"example.com:443", "ok", some 3, none, 1⟩ :=
  ⟨⟨by decide, by decide, rfl⟩,
    probe_host_success_first_at "example.com:443" wTmo 2 wEnvConnAt1 1 3
      (by decide) (by decide) rfl⟩

/-- C4: for every target, timeout and retry budget `R`, if all `R + 1`
attempts fail (resolution failure, connection error or timeout alike), the
`ProbeResult` returned by `probe_host` has status Unhealthy (`"fail"`),
`retries_used = R`, no latency, and an error equal to the most recent
(final) attempt's failure detail — earlier attempts' details are
discarded once superseded. -/
theorem probe_host_allfail (host : String) (tmo : Duration) (retries : Nat)
    (env : Nat → AttemptOutcome)
    (hfail : ∀ j, j ≤ retries → (env j).isConn = false) :
    probe_host host tmo retries env =
      ⟨host, "fail", none, errorDetail tmo (env retries), retries⟩ := by
  rcases probe_host_cases host tmo retries env with
    ⟨i, lat, hiR, hconn, _, _⟩ | ⟨_, heq⟩
  · have hfi := hfail i hiR
    rw [hconn] at hfi
    simp [AttemptOutcome.isConn] at hfi
  · exact heq

theorem probe_host_allfail_witness :
    (∀ j, j ≤ 1 → (wEnvTimeout j).isConn = false) ∧
    probe_host "example.com:443" wTmo 1 wEnvTimeout =
      ⟨"example.com:443", "fail", none, some "timeout (5000ms)", 1⟩ := by
  refine ⟨by decide, ?_⟩
  rw [probe_host_allfail "example.com:443" wTmo 1 wEnvTimeout (by decide)]
  decide

/-- C10: for every target, timeout and retry budget `R`, the `ProbeResult`
returned by `probe_host` has `retries_used ≤ R`, whether Healthy or
Unhealthy. -/
theorem probe_host_retries_used_le (host : String) (tmo : Duration)
    (retries : Nat) (env : Nat → AttemptOutcome) :
    (probe_host host tmo retries env).retries_used ≤ retries := by
  rcases probe_host_cases host tmo retries env with
    ⟨i, lat, hiR, _, _, heq⟩ | ⟨_, heq⟩
  · rw [heq]; exact hiR
  · rw [heq]

/-- C8: every `ProbeResult` produced by `probe_host` has its latency field
present iff the status is Healthy (`"ok"`), and its error field present iff
the status is Unhealthy (`"fail"`). -/
theorem probe_host_field_invariants (host : String) (tmo : Duration)
    (retries : Nat) (env : Nat → AttemptOutcome) :
    ((probe_host host tmo retries env).latency_ms.isSome = true ↔
      (probe_host host tmo retries env).status = "ok") ∧
    ((probe_host host tmo retries env).error.isSome = true ↔
      (probe_host host tmo retries env).status = "fail") := by
  rcases probe_host_cases host tmo retries env with
    ⟨i, lat, _, _, _, heq⟩ | ⟨hall, heq⟩ <;> rw [heq]
  · simp
  · have hlast : (env retries).isConn = false := hall retries (Nat.le_refl _)
    simp [errorDetail_isSome_of_fail tmo (env retries) hlast]

/-- C7: the timing trace of `probe_host` is exactly, for each executed
loop iteration `i` in order, a single backoff sleep of `100·i` ms when
`i ≥ 1` — and no sleep at all when `i = 0` — followed by the start of the
iteration's network work (see `backoffStep`): backoff is linear with no
jitter, no cap and no exponential growth. -/
theorem probe_host_backoff_linear (host : String) (tmo : Duration)
    (retries : Nat) (env : Nat → AttemptOutcome) :
    probeHostEvents host tmo retries env =
      (List.range (runLen env 0 (retries + 1))).flatMap backoffStep := by
  unfold probeHostEvents
  rw [probeHostGo_events host tmo env (retries + 1) 0 none 0,
    List.range_eq_range']

/-- C5 (documents the dead `"ms"` branch): `"<n>s"` and bare-integer
strings parse as claimed, but a millisecond string such as `"100ms"` ends
in `'s'` and is captured by the `strip_suffix('s')` branch, whose numeric
parse of `"100m"` fails, so the seconds-branch fallback of 5 s is returned
instead of 100 ms — the `strip_suffix("ms")` branch is unreachable. -/
theorem parse_duration_ms_branch_dead :
    parse_duration "10s" = .ok (Duration.from_secs 10) ∧
    parse_duration "7" = .ok (Duration.from_secs 7) ∧
    parse_duration "100ms" = .ok (Duration.from_secs 5) ∧
    parse_duration "100ms" ≠ .ok (Duration.from_millis 100) := by
  exact ⟨by decide, by decide, by decide, by decide⟩

/-- One result per target: `runProbes` preserves length. -/
theorem runProbes_length (tmo : Duration) (retries : Nat) :
    ∀ (ts : List String) (env : Nat → Nat → AttemptOutcome),
      (runProbes tmo retries ts env).length = ts.length := by
  intro ts
  induction ts with
  | nil => intro env; rfl
  | cons t ts ih => intro env; simp [runProbes, ih]

/-- The exit-code branch (main.rs lines 217–219) yields 0 exactly when
every produced result is healthy. -/
theorem exit_if_all_ok (targets : List String) (tmo : Duration)
    (retries : Nat) (env : Nat → Nat → AttemptOutcome) :
    ((if (runProbes tmo retries targets env).countP (fun r => r.status == "ok") <
        targets.length then (1 : Nat) else 0) = 0 ↔
      ∀ r ∈ runProbes tmo retries targets env, r.status = "ok") := by
  have hlen := runProbes_length tmo retries targets env
  have hle : (runProbes tmo retries targets env).countP (fun r => r.status == "ok") ≤
      (runProbes tmo retries targets env).length := List.countP_le_length _
  constructor
  · intro h
    have hnlt : ¬ ((runProbes tmo retries targets env).countP
        (fun r => r.status == "ok") < targets.length) := by
      intro hlt
      rw [if_pos hlt] at h
      simp at h
    have heq : (runProbes tmo retries targets env).countP (fun r => r.status == "ok") =
        (runProbes tmo retries targets env).length := by omega
    intro r hr
    have := List.countP_eq_length.mp heq r hr
    simpa using this
  · intro hall
    have heq : (runProbes tmo retries targets env).countP (fun r => r.status == "ok") =
        (runProbes tmo retries targets env).length :=
      List.countP_eq_length.mpr (fun r hr => by simp [hall r hr])
    rw [if_neg (by omega)]

/-- When the file read did not fail, `main` proceeds to the empty-check and
probing phase. -/
theorem mainRun_eq_of_no_fileErr (cli : List String)
    (file : Option (Except String String)) (tmo : Duration) (retries : Nat)
    (env : Nat → Nat → AttemptOutcome)
    (h : ∀ (e : String), file ≠ some (Except.error e)) :
    mainRun cli file tmo retries env =
      (if (mergedTargets cli file).isEmpty then ⟨1, none⟩
       else
        ⟨if (runProbes tmo retries (mergedTargets cli file) env).countP
            (fun r => r.status == "ok") < (mergedTargets cli file).length
          then 1 else 0,
         some ⟨runProbes tmo retries (mergedTargets cli file) env,
           (runProbes tmo retries (mergedTargets cli file) env).countP
             (fun r => r.status == "ok"),
           (mergedTargets cli file).length⟩⟩) := by
  rcases file with _ | f
  · rfl
  · rcases f with e | c
    · exact absurd rfl (h e)
    · rfl

/-- C2: the process exits 0 iff no abort happened and every target's final
`ProbeResult` is Healthy; a file read failure or an empty merged target
list aborts with a nonzero exit before any probing (no summary is
produced). -/
theorem main_exit_status (cli : List String)
    (file : Option (Except String String)) (tmo : Duration) (retries : Nat)
    (env : Nat → Nat → AttemptOutcome) :
    ((mainRun cli file tmo retries env).exitCode = 0 ↔
      ((∀ (e : String), file ≠ some (Except.error e)) ∧
        mergedTargets cli file ≠ [] ∧
        ∀ r ∈ runProbes tmo retries (mergedTargets cli file) env,
          r.status = "ok")) ∧
    (((∃ (e : String), file = some (Except.error e)) ∨
        mergedTargets cli file = []) →
      (mainRun cli file tmo retries env).summary = none) := by
  by_cases herr : ∃ (e : String), file = some (Except.error e)
  · obtain ⟨e, he⟩ := herr
    subst he
    constructor
    · exact iff_of_false (by simp [mainRun]) (fun hrhs => hrhs.1 e rfl)
    · intro _
      simp [mainRun]
  · have hno : ∀ (e : String), file ≠ some (Except.error e) := by
      intro e he
      exact herr ⟨e, he⟩
    rw [mainRun_eq_of_no_fileErr cli file tmo retries env hno]
    by_cases hemp : mergedTargets cli file = []
    · rw [if_pos (by simp [hemp])]
      constructor
      · exact iff_of_false (by simp) (fun hrhs => hrhs.2.1 hemp)
      · intro _
        rfl
    · rw [if_neg (by simpa [List.isEmpty_iff] using hemp)]
      constructor
      · constructor
        · intro h0
          exact ⟨hno, hemp,
            (exit_if_all_ok (mergedTargets cli file) tmo retries env).mp h0⟩
        · intro hrhs
          exact (exit_if_all_ok (mergedTargets cli file) tmo retries env).mpr
            hrhs.2.2
      · rintro (⟨e, he⟩ | h)
        · exact absurd he (hno e)
        · exact absurd h hemp

/-- Witness environment for whole runs: every attempt of every task
connects in 1 ms. -/
def wEnvOk : Nat → Nat → AttemptOutcome := fun _ _ => AttemptOutcome.connected 1

theorem main_exit_status_witness :
    (mainRun [] (some (Except.error "boom")) wTmo 0 wEnvOk).summary = none ∧
    (mainRun ["h:1"] none wTmo 0 wEnvOk).exitCode = 0 :=
  ⟨(main_exit_status [] (some (Except.error "boom")) wTmo 0 wEnvOk).2
      (Or.inl ⟨"boom", rfl⟩),
   (main_exit_status ["h:1"] none wTmo 0 wEnvOk).1.mpr
      ⟨by simp, by simp [mergedTargets], by decide⟩⟩

/-- C1: for every non-empty target list, any complete execution of the
task system — whatever the interleaving of slot acquisitions and
completions — collects exactly one `ProbeResult` per input target, and the
result sequence is index-aligned with the input order
(`results[k].host = targets[k]` for every `k`). -/
theorem summary_one_result_per_target_in_order (targets : List String)
    (tmo : Duration) (retries : Nat) (env : Nat → Nat → AttemptOutcome)
    (conc : Nat) (s : SysState) ( _hne : targets ≠ [])
    (hr : Reaches targets tmo retries env conc s)
    (hfin : ∀ ph ∈ s.phases, ph.isFinished = true) :
    (extractResults s.phases).length = targets.length ∧
    ∀ (k : Nat), ((extractResults s.phases)[k]?).map ProbeResult.host =
      targets[k]? := by
  obtain ⟨hlen, _, hres⟩ := reaches_invariant targets tmo retries env conc s hr
  refine extractResults_spec s.phases targets hlen hfin ?_
  intro k r h
  obtain ⟨t, ht, hrr⟩ := hres k r h
  exact ⟨t, ht, by rw [hrr, probe_host_host]⟩

/-- Witness target list. -/
def wTargets : List String := ["a:1", "b:2"]

/-- Witness environment for the task system: every attempt times out. -/
def wEnvPar : Nat → Nat → AttemptOutcome := fun _ _ => AttemptOutcome.timedOut

/-- Result of witness task 0. -/
def wResA : ProbeResult := probe_host "a:1" wTmo 0 (wEnvPar 0)

/-- Result of witness task 1. -/
def wResB : ProbeResult := probe_host "b:2" wTmo 0 (wEnvPar 1)

/-- Final state of the witness execution. -/
def wFinal : SysState :=
  ⟨[TaskPhase.finished wResA, TaskPhase.finished wResB], 2⟩

/-- A complete concrete execution with two permits in which task 1
finishes before task 0 (completion order differs from input order). -/
theorem wFinal_reached : Reaches wTargets wTmo 0 wEnvPar 2 wFinal := by
  have h0 : Reaches wTargets wTmo 0 wEnvPar 2 (initState wTargets 2) :=
    Reaches.init
  have h1 := Reaches.step h0
    (Step.acquire [TaskPhase.waiting, TaskPhase.waiting] 2 0 rfl (by decide))
  have h2 := Reaches.step h1
    (Step.acquire [TaskPhase.running, TaskPhase.waiting] 1 1 rfl (by decide))
  have h3 := Reaches.step h2
    (Step.finish [TaskPhase.running, TaskPhase.running] 0 1 "b:2" rfl rfl)
  have h4 := Reaches.step h3
    (Step.finish [TaskPhase.running, TaskPhase.finished wResB] 1 0 "a:1" rfl rfl)
  exact h4

theorem summary_one_result_per_target_in_order_witness :
    (extractResults wFinal.phases).length = wTargets.length ∧
    ((extractResults wFinal.phases)[0]?).map ProbeResult.host = some "a:1" ∧
    ((extractResults wFinal.phases)[1]?).map ProbeResult.host = some "b:2" := by
  have hmain := summary_one_result_per_target_in_order wTargets wTmo 0 wEnvPar
    2 wFinal (by simp [wTargets]) wFinal_reached
    (by
      intro ph hph
      rcases List.mem_cons.mp hph with h | h
      · subst h; rfl
      · rcases List.mem_cons.mp h with h2 | h2
        · subst h2; rfl
        · simp at h2)
  refine ⟨hmain.1, ?_, ?_⟩
  · simpa [wTargets] using hmain.2 0
  · simpa [wTargets] using hmain.2 1

/-- C9: for every configured concurrency limit `C ≥ 1` and every target
list, in every reachable state at most `C` tasks are simultaneously past
the slot-acquisition point; moreover the running tasks and free permits
always partition the `C` permits exactly — every task that left the
running phase has returned its permit (the slot is released on every exit
path). -/
theorem concurrency_bounded (targets : List String) (tmo : Duration)
    (retries : Nat) (env : Nat → Nat → AttemptOutcome) (conc : Nat)
    (s : SysState) ( _hconc : 1 ≤ conc)
    (hr : Reaches targets tmo retries env conc s) :
    countRunning s ≤ conc ∧ countRunning s + s.avail = conc := by
  obtain ⟨_, hcnt, _⟩ := reaches_invariant targets tmo retries env conc s hr
  exact ⟨by omega, hcnt⟩

theorem concurrency_bounded_witness :
    (1 : Nat) ≤ 1 ∧
    countRunning ⟨[TaskPhase.running, TaskPhase.waiting], 0⟩ ≤ 1 ∧
    countRunning ⟨[TaskPhase.running, TaskPhase.waiting], 0⟩ + 0 = 1 := by
  have h0 : Reaches wTargets wTmo 0 wEnvPar 1 (initState wTargets 1) :=
    Reaches.init
  have h1 := Reaches.step h0
    (Step.acquire [TaskPhase.waiting, TaskPhase.waiting] 1 0 rfl (by decide))
  have hmain := concurrency_bounded wTargets wTmo 0 wEnvPar 1
    ⟨[TaskPhase.running, TaskPhase.waiting], 0⟩ (by decide) h1
  exact ⟨by decide, hmain.1, by simpa using hmain.2⟩

end TcpProbe
